import Mathlib

/-!
Shallow embedding of `src/model_distiller.py` (knowledge-distillation training
driver) and of the `src/models/classification/lenet5.py`-independent core logic
the spec describes: checkpoint store (`load_ckpt`, `save_ckpt`), the epoch loop
(`distill`), the per-batch training loop (`distill_one_epoch`) and the
evaluator (`evaluate`).

External framework operations (tensor math, gradients, state dicts of the ML
library) are abstracted as opaque type parameters and function parameters;
the control flow and state management — the part the spec calls the core —
is translated directly from the Python source.  Validation accuracies and
losses are modelled as rationals (`ℚ`): the source only compares and averages
them, so any linearly ordered field is a faithful abstraction.
-/

namespace ModelDistiller

/-- The checkpoint dictionary written by `save_ckpt` (model_distiller.py,
lines 74-80): keys `model`, `optimizer`, `lr_scheduler`, `best_value`,
`config`, `args`.  `best_value` is an `Option` because `load_ckpt` reads it
with `ckpt.get('best_value', 0.0)`, i.e. the key may be absent in a
checkpoint produced elsewhere. -/
structure Ckpt (M O S C A : Type) where
  model : M
  optimizer : O
  lr_scheduler : S
  best_value : Option ℚ
  config : C
  args : A
deriving DecidableEq

/-- A Python value as returned from `load_ckpt`: the function returns either
the two-element tuple `(None, None)` or the three-element tuple
`(best_value, config, args)`, modelled as a list of tagged values. -/
inductive PyObj (C A : Type) where
  | pyNone : PyObj C A
  | num : ℚ → PyObj C A
  | config : C → PyObj C A
  | args : A → PyObj C A
deriving DecidableEq

/-- Embedding of `load_ckpt` (model_distiller.py, lines 45-60).
`fs` is the content of the file at `ckpt_file_path` (`none` when
`file_util.check_if_exists` fails).  The three `Option` arguments mirror the
`model=None, optimizer=None, lr_scheduler=None` keyword arguments; the first
component of the result gives the state of those three objects after the
call (`load_state_dict` replaces a passed object's state with the stored
one), the second component is the Python return value. -/
def load_ckpt (fs : Option (Ckpt M O S C A)) (model : Option M)
    (optimizer : Option O) (lr_scheduler : Option S) (strict : Bool) :
    (Option M × Option O × Option S) × List (PyObj C A) :=
  match fs with
  | Option.none => ((model, optimizer, lr_scheduler), [PyObj.pyNone, PyObj.pyNone])
  | Option.some ckpt =>
      let model' := model.map fun _ => ckpt.model
      let optimizer' := optimizer.map fun _ => ckpt.optimizer
      let lr_scheduler' := lr_scheduler.map fun _ => ckpt.lr_scheduler
      ((model', optimizer', lr_scheduler'),
        [PyObj.num (ckpt.best_value.getD 0), PyObj.config ckpt.config,
          PyObj.args ckpt.args])

/-- A model object as passed to `save_ckpt`: either a bare module or one
wrapped in `DistributedDataParallel` (whose `.module` holds the underlying
module's state). -/
inductive PyModel (M : Type) where
  | plain : M → PyModel M
  | ddp : M → PyModel M
deriving DecidableEq

/-- State-dict extraction as written in `save_ckpt` (line 76-77):
`model.module.state_dict() if isinstance(model, DistributedDataParallel)
else model.state_dict()`. -/
def PyModel.state_dict : PyModel M → M
  | PyModel.plain m => m
  | PyModel.ddp m => m

/-- The dictionary literal passed to `save_on_master` in `save_ckpt`
(lines 78-80). -/
def ckpt_dict (model : PyModel M) (optimizer : O) (lr_scheduler : S)
    (best_value : ℚ) (config : C) (args : A) : Ckpt M O S C A :=
  { model := model.state_dict, optimizer := optimizer,
    lr_scheduler := lr_scheduler, best_value := Option.some best_value,
    config := config, args := args }

/-- Modelled from the spec: `main_util.save_on_master` (utils/main_util.py is
not under src/) — the spec's Checkpoint Store "serializes … to the given
output path", so the call writes the dictionary to the path.  The file
system is a map from paths to optional checkpoint contents. -/
def save_on_master (d : Ckpt M O S C A) (output_file_path : ℕ)
    (fs : ℕ → Option (Ckpt M O S C A)) : ℕ → Option (Ckpt M O S C A) :=
  fun q => if q = output_file_path then Option.some d else fs q

/-- Embedding of `save_ckpt` (model_distiller.py, lines 74-80): build the
dictionary (unwrapping a `DistributedDataParallel` model) and write it to
`output_file_path`. -/
def save_ckpt (model : PyModel M) (optimizer : O) (lr_scheduler : S)
    (best_value : ℚ) (config : C) (args : A) (output_file_path : ℕ)
    (fs : ℕ → Option (Ckpt M O S C A)) : ℕ → Option (Ckpt M O S C A) :=
  save_on_master (ckpt_dict model optimizer lr_scheduler best_value config args)
    output_file_path fs

/-- Embedding of the logging-interval computation in `distill`
(model_distiller.py, lines 151-154):
`interval = train_config['interval']; if interval <= 0:
interval = num_batches // 20 if num_batches >= 20 else 1`. -/
def effective_interval (configured : ℤ) (num_batches : ℕ) : ℤ :=
  if configured ≤ 0 then
    (if 20 ≤ num_batches then ((num_batches / 20 : ℕ) : ℤ) else 1)
  else configured

/-! ### distill_one_epoch (model_distiller.py, lines 83-102) -/

/-- Trace events of the per-batch training loop, indexed by batch number:
the forward pass computing the distillation loss, `optimizer.zero_grad()`,
`loss.backward()` (with a flag recording whether the apex-scaled variant
ran), and `optimizer.step()`. -/
inductive BEvent where
  | forwardLoss : ℕ → BEvent
  | zero_grad : ℕ → BEvent
  | backward : ℕ → Bool → BEvent
  | optStep : ℕ → BEvent
deriving DecidableEq

/-- The external-framework operations `distill_one_epoch` drives, acting on
an abstract training state `σ` (student parameters, gradients and optimizer
state together): the distillation-box forward pass producing a loss, gradient
zeroing, (scaled) backpropagation, and the optimizer step. -/
structure TrainOps (σ β : Type) where
  lossF : σ → β → ℚ
  zeroGradF : σ → σ
  backwardF : ℚ → σ → σ
  backwardScaledF : ℚ → σ → σ
  stepF : σ → σ

/-- Embedding of the loop body of `distill_one_epoch` (lines 88-102): for
each batch, compute the loss by a forward pass, zero the gradients,
backpropagate (through apex scaling when `use_apex`), and take one optimizer
step.  Returns the final training state and the event trace; `i` numbers the
first batch.  Metric-logger updates (lines 100-102) only feed logging and
carry no control flow, so they are not traced. -/
def distill_one_epoch (ops : TrainOps σ β) (use_apex : Bool)
    (batches : List β) (i : ℕ) (s : σ) : σ × List BEvent :=
  match batches with
  | [] => (s, [])
  | b :: rest =>
      let loss := ops.lossF s b
      let s1 := ops.zeroGradF s
      let s2 := if use_apex then ops.backwardScaledF loss s1
                else ops.backwardF loss s1
      let s3 := ops.stepF s2
      let r := distill_one_epoch ops use_apex rest (i + 1) s3
      (r.1, BEvent.forwardLoss i :: BEvent.zero_grad i ::
        BEvent.backward i use_apex :: BEvent.optStep i :: r.2)

/-- One batch's block of trace events in `distill_one_epoch`. -/
def batchBlock (i : ℕ) (use_apex : Bool) : List BEvent :=
  [BEvent.forwardLoss i, BEvent.zero_grad i, BEvent.backward i use_apex,
    BEvent.optStep i]

/-- Recognizer for optimizer-step events. -/
def BEvent.isStep : BEvent → Bool
  | BEvent.optStep _ => true
  | _ => false

/-! ### evaluate (model_distiller.py, lines 105-134) -/

/-- Module mode as toggled by `model.eval()` / `model.train()`. -/
inductive Mode where
  | train : Mode
  | eval : Mode
deriving DecidableEq

/-- The mutable torch-level state `evaluate` touches: the global thread
count (`torch.get_num_threads` / `torch.set_num_threads`), the model's
parameters, the model's train/eval mode, and whether gradient recording is
enabled (`torch.no_grad`). -/
structure TorchEnv (P : Type) where
  numThreads : ℕ
  params : P
  mode : Mode
  gradEnabled : Bool
deriving DecidableEq

/-- Modelled from the spec: `SmoothedValue` of `structure.logger` (not under
src/) — it "tracks a running average": `update(v, n)` adds `v * n` to a
running total and `n` to a sample count, and `global_avg` is total / count. -/
structure SmoothedValue where
  total : ℚ
  count : ℕ
deriving DecidableEq

/-- Weighted update of a running average meter. -/
def SmoothedValue.update (sv : SmoothedValue) (v : ℚ) (n : ℕ) : SmoothedValue :=
  { total := sv.total + v * (n : ℚ), count := sv.count + n }

/-- Global (weighted) average of a meter. -/
def SmoothedValue.global_avg (sv : SmoothedValue) : ℚ :=
  sv.total / (sv.count : ℚ)

/-- Modelled from the spec: `MetricLogger.synchronize_between_processes`
(structure.logger, not under src/) — it "aggregates across distributed
workers" by summing every worker's total and count. -/
def syncMeters (svs : List SmoothedValue) : SmoothedValue :=
  { total := (svs.map SmoothedValue.total).sum,
    count := (svs.map SmoothedValue.count).sum }

/-- Modelled from the spec: `main_util.compute_accuracy` (utils/main_util.py
is not under src/) — per the glossary, "Top-k accuracy: fraction of samples
for which the true label is among the k highest-scored predictions".  The
label is among the k highest-scored predictions when fewer than k classes
score strictly higher than it. -/
def inTopK (k : ℕ) (scores : List ℚ) (target : ℕ) : Bool :=
  match scores.get? target with
  | Option.none => false
  | Option.some s => decide ((scores.filter fun x => s < x).length < k)

/-- Number of samples of a batch whose label is in the top-k predictions of
the model `p` under forward function `fwd`. -/
def batchCorrect (k : ℕ) (fwd : P → ι → List ℚ) (p : P)
    (b : List (ι × ℕ)) : ℕ :=
  b.countP fun sample => inTopK k (fwd p sample.1) sample.2

/-- Per-batch top-k accuracy: fraction of the batch whose label is in the
top-k predictions (what `compute_accuracy` returns for one batch). -/
def batchAccK (k : ℕ) (fwd : P → ι → List ℚ) (p : P)
    (b : List (ι × ℕ)) : ℚ :=
  (batchCorrect k fwd p b : ℚ) / (b.length : ℚ)

/-- Trace event of `evaluate`: one forward pass `model(image)`, recording
whether gradient recording was enabled when it ran. -/
inductive EvEvent where
  | forwardPass : Bool → EvEvent
deriving DecidableEq

/-- Embedding of the evaluation loop of `evaluate` (lines 116-126): for each
batch, run the model forward, compute top-1/top-5 accuracy of the batch, and
update both meters weighted by the batch size. -/
def evalLoop (fwd : P → ι → List ℚ) (p : P) (batches : List (List (ι × ℕ)))
    (acc1 acc5 : SmoothedValue) (grad : Bool) :
    SmoothedValue × SmoothedValue × List EvEvent :=
  match batches with
  | [] => (acc1, acc5, [])
  | b :: rest =>
      let a1 := batchAccK 1 fwd p b
      let a5 := batchAccK 5 fwd p b
      let n := b.length
      let r := evalLoop fwd p rest (acc1.update a1 n) (acc5.update a5 n) grad
      (r.1, r.2.1, EvEvent.forwardPass grad :: r.2.2)

/-- The pair of meters a worker contributes to synchronization after running
the evaluation loop over its shard of the data. -/
def workerMeters (fwd : P → ι → List ℚ) (p : P)
    (batches : List (List (ι × ℕ))) : SmoothedValue × SmoothedValue :=
  let r := evalLoop fwd p batches { total := 0, count := 0 }
    { total := 0, count := 0 } false
  (r.1, r.2.1)

/-- Embedding of `evaluate` (model_distiller.py, lines 105-134): save the
thread count and set it to 1, put the model in eval mode, disable gradient
recording (the `@torch.no_grad()` decorator and `with torch.no_grad():`
block), run the evaluation loop, synchronize the meters with the other
workers' meters, take the global averages, restore gradient recording on
leaving the `no_grad` scope and restore the thread count.  Returns the final
torch state, the top-1 accuracy (the Python return value), the top-5
accuracy (computed for logging at lines 131-132) and the trace of forward
passes. -/
def evaluate (fwd : P → ι → List ℚ) (env : TorchEnv P)
    (batches : List (List (ι × ℕ)))
    (otherMeters : List (SmoothedValue × SmoothedValue)) :
    TorchEnv P × ℚ × ℚ × List EvEvent :=
  let num_threads := env.numThreads
  let env1 : TorchEnv P := { env with numThreads := 1 }
  let env2 : TorchEnv P := { env1 with mode := Mode.eval }
  let env3 : TorchEnv P := { env2 with gradEnabled := false }
  let r := evalLoop fwd env3.params batches { total := 0, count := 0 }
    { total := 0, count := 0 } env3.gradEnabled
  let s1 := syncMeters (r.1 :: otherMeters.map Prod.fst)
  let s5 := syncMeters (r.2.1 :: otherMeters.map Prod.snd)
  let top1_accuracy := s1.global_avg
  let top5_accuracy := s5.global_avg
  let env4 : TorchEnv P := { env3 with gradEnabled := env.gradEnabled }
  let env5 : TorchEnv P := { env4 with numThreads := num_threads }
  (env5, top1_accuracy, top5_accuracy, r.2.2)

/-- Total number of correct-at-k samples over a list of batches. -/
def correctSum (k : ℕ) (fwd : P → ι → List ℚ) (p : P)
    (bs : List (List (ι × ℕ))) : ℕ :=
  (bs.map (batchCorrect k fwd p)).sum

/-- Total number of samples over a list of batches. -/
def sizeSum (bs : List (List (ι × ℕ))) : ℕ :=
  (bs.map List.length).sum

/-! ### distill (model_distiller.py, lines 137-179) -/

/-- Trace events of the epoch loop of `distill`: the `distill_one_epoch`
call, the `evaluate` call on the validation loader (recording the returned
top-1 accuracy), the `save_ckpt` call, and `lr_scheduler.step()`, each
tagged with the epoch number. -/
inductive DEvent where
  | trainEpoch : ℕ → DEvent
  | evalEpoch : ℕ → ℚ → DEvent
  | saveEpoch : ℕ → DEvent
  | schedStep : ℕ → DEvent
deriving DecidableEq

/-- Inputs of `distill`: the abstract effect of one `distill_one_epoch` call
on student parameters and optimizer state (`trainF`, indexed by epoch to
account for data-order dependence), the validation accuracy `evaluate`
returns for given student parameters (`evalF`), the effect of
`lr_scheduler.step()` (`schedF`), whether `main_util.is_main_process()`
holds for this process, the config and args passed through to `save_ckpt`,
the epoch range, the initial student/optimizer/scheduler objects, the
content of the file at `ckpt_file_path` when the run starts (`none` when it
does not exist), and the configured logging interval with the train-loader
length. -/
structure DParams (M O S C A : Type) where
  trainF : ℕ → M → O → M × O
  evalF : M → ℚ
  schedF : S → S
  isMain : Bool
  cfg : C
  args : A
  startEpoch : ℕ
  epochCfg : ℕ
  student0 : M
  opt0 : O
  sched0 : S
  disk0 : Option (Ckpt M O S C A)
  configuredInterval : ℤ
  numTrainBatches : ℕ

/-- The loop state of `distill`: the live student parameters, optimizer and
scheduler objects, `best_val_top1_accuracy`, the content of the checkpoint
file at `ckpt_file_path`, and the event trace so far. -/
structure DState (M O S C A : Type) where
  student : M
  optimizer : O
  scheduler : S
  best : ℚ
  disk : Option (Ckpt M O S C A)
  events : List DEvent

/-- Embedding of the setup of `distill` before the epoch loop (lines
147-150): `best_val_top1_accuracy = 0.0`, then, when the checkpoint file
exists, `load_ckpt(ckpt_file_path, optimizer=optimizer,
lr_scheduler=lr_scheduler)` — note the student model is not passed and the
returned best value is bound to the unused `best_val_map`. -/
def distillInit (p : DParams M O S C A) : DState M O S C A :=
  if p.disk0.isSome then
    let r := load_ckpt p.disk0 Option.none (Option.some p.opt0)
      (Option.some p.sched0) true
    { student := p.student0, optimizer := r.1.2.1.getD p.opt0,
      scheduler := r.1.2.2.getD p.sched0, best := 0, disk := p.disk0,
      events := [] }
  else
    { student := p.student0, optimizer := p.opt0, scheduler := p.sched0,
      best := 0, disk := p.disk0, events := [] }

/-- Embedding of one iteration of the epoch loop of `distill` (lines
159-174): run `distill_one_epoch`, evaluate the student on the validation
loader, and when the new accuracy strictly exceeds the running best on the
main process, update the best and save a checkpoint (note the checkpoint
stores the scheduler state before `lr_scheduler.step()`, which runs last).
`teacher_model.eval()` / `student_model.train()` and the distributed
sampler's `set_epoch` only touch external objects no claim mentions and are
not traced. -/
def distillStep (p : DParams M O S C A) (e : ℕ) (st : DState M O S C A) :
    DState M O S C A :=
  let tr := p.trainF e st.student st.optimizer
  let student' := tr.1
  let opt' := tr.2
  let val_top1_accuracy := p.evalF student'
  let doSave := decide (st.best < val_top1_accuracy) && p.isMain
  let best' := if doSave then val_top1_accuracy else st.best
  let disk' := if doSave then
      Option.some (ckpt_dict (PyModel.plain student') opt' st.scheduler best'
        p.cfg p.args)
    else st.disk
  { student := student', optimizer := opt', scheduler := p.schedF st.scheduler,
    best := best', disk := disk',
    events := st.events ++ [DEvent.trainEpoch e,
      DEvent.evalEpoch e val_top1_accuracy] ++
      (if doSave then [DEvent.saveEpoch e] else []) ++ [DEvent.schedStep e] }

/-- The loop state after `k` iterations of the epoch loop, starting from
`distillInit`; iteration `k` runs epoch `startEpoch + k`. -/
def distillRun (p : DParams M O S C A) : ℕ → DState M O S C A
  | 0 => distillInit p
  | k + 1 => distillStep p (p.startEpoch + k) (distillRun p k)

/-- Embedding of `distill` (lines 137-179): compute the effective logging
interval, then run the epoch loop for the epochs of
`range(start_epoch, train_config['epoch'])`. -/
def distill (p : DParams M O S C A) : DState M O S C A :=
  let _interval := effective_interval p.configuredInterval p.numTrainBatches
  distillRun p (p.epochCfg - p.startEpoch)

/-- Validation top-1 accuracy observed at loop iteration `k` of `distill`
(epoch `startEpoch + k`): what `evaluate` returns for the student produced
by that iteration's `distill_one_epoch` call. -/
def accAt (p : DParams M O S C A) (k : ℕ) : ℚ :=
  p.evalF (p.trainF (p.startEpoch + k) (distillRun p k).student
    (distillRun p k).optimizer).1

/-- Whether iteration `k` of the epoch loop saves a checkpoint: the new
accuracy strictly exceeds the running best and the process is the main
process. -/
def savedAt (p : DParams M O S C A) (k : ℕ) : Bool :=
  decide ((distillRun p k).best < accAt p k) && p.isMain

/-- One epoch's block of trace events in `distill`. -/
def epochBlock (e : ℕ) (acc : ℚ) (saved : Bool) : List DEvent :=
  [DEvent.trainEpoch e, DEvent.evalEpoch e acc] ++
    (if saved then [DEvent.saveEpoch e] else []) ++ [DEvent.schedStep e]

/-- Epoch number of an evaluation event, used to read off which epochs were
evaluated from a trace. -/
def DEvent.evalNum : DEvent → Option ℕ
  | DEvent.evalEpoch e _ => Option.some e
  | _ => Option.none

/-- Running maximum of the accuracies observed in the first `k` iterations,
with 0 as the value before any observation (the initialization of
`best_val_top1_accuracy`). -/
def maxAccSoFar (p : DParams M O S C A) (k : ℕ) : ℚ :=
  ((List.range k).map (accAt p)).foldl max 0

/-! ### Concrete instances used to exercise the model on closed inputs -/

/-- A checkpoint left on disk by a previous run, with stored best value 9,
over trivial state types. -/
def staleCkpt : Ckpt Unit Unit Unit Unit Unit :=
  { model := (), optimizer := (), lr_scheduler := (),
    best_value := Option.some 9, config := (), args := () }

/-- A one-epoch `distill` configuration over trivial state types whose
validation accuracy is the constant `a` and whose checkpoint file initially
holds `d`, on the main process. -/
def constParams (a : ℚ) (d : Option (Ckpt Unit Unit Unit Unit Unit)) :
    DParams Unit Unit Unit Unit Unit :=
  { trainF := fun _ m o => (m, o), evalF := fun _ => a, schedF := id,
    isMain := true, cfg := (), args := (), startEpoch := 0, epochCfg := 1,
    student0 := (), opt0 := (), sched0 := (), disk0 := d,
    configuredInterval := -1, numTrainBatches := 100 }

/-! ## Theorems -/

/-- C4: when the checkpoint file exists, `load_ckpt` deserializes the stored
states into exactly those of model/optimizer/lr_scheduler that were passed
as non-None arguments (a `none` argument stays untouched, a `some` argument
receives the stored state), and returns the triple of the stored best metric
(defaulting to 0.0 when the checkpoint has no best_value entry), the stored
config and the stored args. -/
theorem load_ckpt_exists_spec (c : Ckpt M O S C A) (mo : Option M)
    (oo : Option O) (so : Option S) (strict : Bool) :
    (load_ckpt (Option.some c) mo oo so strict).1 =
      (mo.map fun _ => c.model, oo.map fun _ => c.optimizer,
        so.map fun _ => c.lr_scheduler) ∧
    (load_ckpt (Option.some c) mo oo so strict).2 =
      [PyObj.num (c.best_value.getD 0), PyObj.config c.config,
        PyObj.args c.args] :=
  ⟨rfl, rfl⟩

/-- C9: when the checkpoint file does not exist, `load_ckpt` returns the
two-element tuple `(None, None)` — of length 2, unlike the length-3 tuple of
the success path — and leaves the passed model, optimizer and scheduler
entirely unchanged. -/
theorem load_ckpt_missing_spec (c : Ckpt M O S C A) (mo : Option M)
    (oo : Option O) (so : Option S) (strict : Bool) :
    load_ckpt (Option.none : Option (Ckpt M O S C A)) mo oo so strict =
      ((mo, oo, so), [PyObj.pyNone, PyObj.pyNone]) ∧
    (load_ckpt (Option.none : Option (Ckpt M O S C A)) mo oo so strict).2.length
      = 2 ∧
    (load_ckpt (Option.some c) mo oo so strict).2.length = 3 :=
  ⟨rfl, rfl, rfl⟩

/-- C3: `save_ckpt` writes exactly the snapshot dictionary {model state
dict, optimizer, lr_scheduler, best_value, config, args} to the given output
path (unwrapping a `DistributedDataParallel` model first via
`PyModel.state_dict`) and leaves every other path of the file system
unchanged. -/
theorem save_ckpt_spec (model : PyModel M) (opt : O) (sched : S) (bv : ℚ)
    (cfg : C) (a : A) (path q : ℕ) (fs : ℕ → Option (Ckpt M O S C A))
    (hq : q ≠ path) :
    save_ckpt model opt sched bv cfg a path fs path =
      Option.some
        { model := model.state_dict, optimizer := opt, lr_scheduler := sched,
          best_value := Option.some bv, config := cfg, args := a } ∧
    save_ckpt model opt sched bv cfg a path fs q = fs q := by
  refine ⟨?_, ?_⟩ <;> simp [save_ckpt, save_on_master, ckpt_dict, hq]

/-- Witness for C3 at a concrete DDP-wrapped model and an empty file
system. -/
theorem save_ckpt_spec_witness :
    save_ckpt (PyModel.ddp 7) 1 2 (1 / 2) 3 4 0
        (fun _ => (Option.none : Option (Ckpt ℕ ℕ ℕ ℕ ℕ))) 0 =
      Option.some
        { model := 7, optimizer := 1, lr_scheduler := 2,
          best_value := Option.some (1 / 2), config := 3, args := 4 } ∧
    save_ckpt (PyModel.ddp 7) 1 2 (1 / 2) 3 4 0
        (fun _ => (Option.none : Option (Ckpt ℕ ℕ ℕ ℕ ℕ))) 1 =
      Option.none :=
  save_ckpt_spec (PyModel.ddp 7) 1 2 (1 / 2) 3 4 0 1
    (fun _ => (Option.none : Option (Ckpt ℕ ℕ ℕ ℕ ℕ))) (by decide)

/-- C10: the logging interval `distill` computes is always at least 1; a
positive configured interval is used unchanged, and a nonpositive one is
replaced by the number of training batches integer-divided by 20 when that
number is at least 20 and by 1 otherwise. -/
theorem effective_interval_spec (configured : ℤ) (num_batches : ℕ) :
    1 ≤ effective_interval configured num_batches ∧
    effective_interval configured num_batches =
      (if 0 < configured then configured
       else if 20 ≤ num_batches then ((num_batches / 20 : ℕ) : ℤ) else 1) := by
  unfold effective_interval
  constructor
  · split
    · split
      · have h : 1 ≤ num_batches / 20 :=
          (Nat.one_le_div_iff (by norm_num)).2 (by assumption)
        exact_mod_cast h
      · norm_num
    · omega
  · split <;> split <;> omega

/-- The per-batch trace of `distill_one_epoch`: one block of
forward/zero_grad/backward/step per batch, numbered consecutively from the
starting index. -/
theorem distill_one_epoch_trace (ops : TrainOps σ β) (ua : Bool) :
    ∀ (batches : List β) (i : ℕ) (s : σ),
      (distill_one_epoch ops ua batches i s).2 =
        (List.range' i batches.length).flatMap fun j => batchBlock j ua := by
  intro batches
  induction batches with
  | nil => intro i s; simp [distill_one_epoch]
  | cons b rest ih =>
      intro i s
      simp only [distill_one_epoch, List.length_cons, List.range'_succ,
        List.flatMap_cons]
      rw [ih]
      simp [batchBlock]

/-- Each batch block of `distill_one_epoch` contains exactly one
optimizer-step event. -/
theorem batchBlock_step_count (j : ℕ) (ua : Bool) :
    (batchBlock j ua).countP BEvent.isStep = 1 := by
  simp [batchBlock, List.countP_cons, BEvent.isStep]

/-- C5: in `distill_one_epoch`, every batch triggers exactly one cycle, in
order: forward pass computing the distillation loss, `optimizer.zero_grad()`,
backpropagation of the loss, then one `optimizer.step()` — hence the trace is
one four-event block per batch and the number of optimizer steps equals the
number of batches. -/
theorem distill_one_epoch_cycle_per_batch (ops : TrainOps σ β) (ua : Bool)
    (batches : List β) (i : ℕ) (s : σ) :
    (distill_one_epoch ops ua batches i s).2 =
      ((List.range' i batches.length).flatMap fun j => batchBlock j ua) ∧
    (distill_one_epoch ops ua batches i s).2.countP BEvent.isStep =
      batches.length := by
  refine ⟨distill_one_epoch_trace ops ua batches i s, ?_⟩
  rw [distill_one_epoch_trace ops ua batches i s]
  have h : ∀ (n j : ℕ),
      ((List.range' j n).flatMap fun m => batchBlock m ua).countP BEvent.isStep
        = n := by
    intro n
    induction n with
    | zero => intro j; simp
    | succ n ih =>
        intro j
        simp only [List.range'_succ, List.flatMap_cons, List.countP_append,
          batchBlock_step_count, ih]
        omega
  exact h batches.length i

/-- The evaluation loop leaves a trace of one forward pass per batch, each
run with the gradient flag it was given. -/
theorem evalLoop_trace (fwd : P → ι → List ℚ) (p : P) :
    ∀ (bs : List (List (ι × ℕ))) (a1 a5 : SmoothedValue) (g : Bool),
      (evalLoop fwd p bs a1 a5 g).2.2 =
        List.replicate bs.length (EvEvent.forwardPass g) := by
  intro bs
  induction bs with
  | nil => intro a1 a5 g; simp [evalLoop]
  | cons b rest ih =>
      intro a1 a5 g
      simp [evalLoop, ih, List.replicate_succ]

/-- C7: `evaluate` is inference-only: it returns the torch state it started
from except that the model is left in eval mode — thread count restored,
parameters untouched, gradient recording restored — and every forward pass
of its trace ran with gradient recording disabled. -/
theorem evaluate_frame (fwd : P → ι → List ℚ) (env : TorchEnv P)
    (batches : List (List (ι × ℕ)))
    (otherMeters : List (SmoothedValue × SmoothedValue)) :
    (evaluate fwd env batches otherMeters).1 = { env with mode := Mode.eval } ∧
    (evaluate fwd env batches otherMeters).2.2.2 =
      List.replicate batches.length (EvEvent.forwardPass false) := by
  constructor
  · rfl
  · show (evalLoop fwd env.params batches _ _ false).2.2 = _
    exact evalLoop_trace fwd env.params batches _ _ false

/-- A per-batch accuracy times the batch size gives back the number of
correct samples of the batch (also in the degenerate empty-batch case, where
both sides vanish). -/
theorem batchAccK_mul_length (k : ℕ) (fwd : P → ι → List ℚ) (p : P)
    (b : List (ι × ℕ)) :
    batchAccK k fwd p b * (b.length : ℚ) = (batchCorrect k fwd p b : ℚ) := by
  rcases eq_or_ne b [] with hb | hb
  · subst hb; simp [batchAccK, batchCorrect]
  · have hlen : (b.length : ℚ) ≠ 0 := by
      exact_mod_cast fun h => hb (List.length_eq_zero.mp h)
    exact div_mul_cancel₀ _ hlen

/-- The accuracy meters after the evaluation loop hold the initial totals
plus the number of correct samples, and the initial counts plus the number
of samples, over all batches. -/
theorem evalLoop_meters (fwd : P → ι → List ℚ) (p : P) :
    ∀ (bs : List (List (ι × ℕ))) (a1 a5 : SmoothedValue) (g : Bool),
      (evalLoop fwd p bs a1 a5 g).1 =
        { total := a1.total + (correctSum 1 fwd p bs : ℚ),
          count := a1.count + sizeSum bs } ∧
      (evalLoop fwd p bs a1 a5 g).2.1 =
        { total := a5.total + (correctSum 5 fwd p bs : ℚ),
          count := a5.count + sizeSum bs } := by
  intro bs
  induction bs with
  | nil =>
      intro a1 a5 g
      simp [evalLoop, correctSum, sizeSum]
  | cons b rest ih =>
      intro a1 a5 g
      have h1 := (ih (a1.update (batchAccK 1 fwd p b) b.length)
        (a5.update (batchAccK 5 fwd p b) b.length) g).1
      have h5 := (ih (a1.update (batchAccK 1 fwd p b) b.length)
        (a5.update (batchAccK 5 fwd p b) b.length) g).2
      constructor
      · show (evalLoop fwd p rest _ _ g).1 = _
        rw [h1]
        simp only [SmoothedValue.update, correctSum, sizeSum, List.map_cons,
          List.sum_cons, batchAccK_mul_length, SmoothedValue.mk.injEq]
        refine ⟨by push_cast; ring, by omega⟩
      · show (evalLoop fwd p rest _ _ g).2.1 = _
        rw [h5]
        simp only [SmoothedValue.update, correctSum, sizeSum, List.map_cons,
          List.sum_cons, batchAccK_mul_length, SmoothedValue.mk.injEq]
        refine ⟨by push_cast; ring, by omega⟩

/-- The meters a worker reports are exactly its correct-sample counts and
its sample count. -/
theorem workerMeters_eq (fwd : P → ι → List ℚ) (p : P)
    (bs : List (List (ι × ℕ))) :
    workerMeters fwd p bs =
      ({ total := (correctSum 1 fwd p bs : ℚ), count := sizeSum bs },
       { total := (correctSum 5 fwd p bs : ℚ), count := sizeSum bs }) := by
  have h := evalLoop_meters fwd p bs { total := 0, count := 0 }
    { total := 0, count := 0 } false
  simp only [workerMeters]
  rw [h.1, h.2]
  simp

/-- Correct-sample counts add over concatenated batch lists. -/
theorem correctSum_append (k : ℕ) (fwd : P → ι → List ℚ) (p : P)
    (bs bs' : List (List (ι × ℕ))) :
    correctSum k fwd p (bs ++ bs') =
      correctSum k fwd p bs + correctSum k fwd p bs' := by
  simp [correctSum]

/-- Sample counts add over concatenated batch lists. -/
theorem sizeSum_append (bs bs' : List (List (ι × ℕ))) :
    sizeSum (bs ++ bs') = sizeSum bs + sizeSum bs' := by
  simp [sizeSum]

/-- Correct-sample counts over a join are the sum of the per-worker
counts. -/
theorem correctSum_flatten (k : ℕ) (fwd : P → ι → List ℚ) (p : P)
    (L : List (List (List (ι × ℕ)))) :
    correctSum k fwd p L.flatten = (L.map (correctSum k fwd p)).sum := by
  induction L with
  | nil => simp [correctSum]
  | cons bs rest ih => simp [List.flatten, correctSum_append, ih]

/-- Sample counts over a join are the sum of the per-worker counts. -/
theorem sizeSum_flatten (L : List (List (List (ι × ℕ)))) :
    sizeSum L.flatten = (L.map sizeSum).sum := by
  induction L with
  | nil => simp [sizeSum]
  | cons bs rest ih => simp [List.flatten, sizeSum_append, ih]

/-- C6: `evaluate` returns as top-1 accuracy the batch-size-weighted global
average of the per-batch top-1 accuracies, which equals the fraction of all
samples — across this worker's batches and every other worker's batches,
aggregated before averaging — whose true label is the highest-scored
prediction; and the top-5 accuracy it accumulates likewise equals the
fraction of all samples whose true label is among the 5 highest-scored
predictions. -/
theorem evaluate_accuracy (fwd : P → ι → List ℚ) (env : TorchEnv P)
    (myBatches : List (List (ι × ℕ)))
    (otherWorkers : List (List (List (ι × ℕ)))) :
    (evaluate fwd env myBatches
        (otherWorkers.map (workerMeters fwd env.params))).2.1 =
      (correctSum 1 fwd env.params (myBatches ++ otherWorkers.flatten) : ℚ) /
        (sizeSum (myBatches ++ otherWorkers.flatten) : ℚ) ∧
    (evaluate fwd env myBatches
        (otherWorkers.map (workerMeters fwd env.params))).2.2.1 =
      (correctSum 5 fwd env.params (myBatches ++ otherWorkers.flatten) : ℚ) /
        (sizeSum (myBatches ++ otherWorkers.flatten) : ℚ) := by
  have hm := evalLoop_meters fwd env.params myBatches
    { total := 0, count := 0 } { total := 0, count := 0 } false
  constructor
  · show (syncMeters _).global_avg = _
    rw [show (evalLoop fwd env.params myBatches
        { total := 0, count := 0 } { total := 0, count := 0 } false).1 =
        { total := (correctSum 1 fwd env.params myBatches : ℚ),
          count := sizeSum myBatches } by rw [hm.1]; simp]
    simp only [syncMeters, SmoothedValue.global_avg, List.map_map,
      List.map_cons, List.sum_cons]
    rw [correctSum_append, sizeSum_append, correctSum_flatten, sizeSum_flatten]
    have e1 : List.map (SmoothedValue.total ∘ Prod.fst ∘ workerMeters fwd
        env.params) otherWorkers =
        otherWorkers.map fun bs => ((correctSum 1 fwd env.params bs : ℕ) : ℚ) := by
      refine List.map_congr_left fun bs _ => ?_
      simp [Function.comp, workerMeters_eq]
    have e2 : List.map (SmoothedValue.count ∘ Prod.fst ∘ workerMeters fwd
        env.params) otherWorkers = otherWorkers.map sizeSum := by
      refine List.map_congr_left fun bs _ => ?_
      simp [Function.comp, workerMeters_eq]
    rw [e1, e2]
    push_cast
    simp only [List.map_map, Function.comp_def]
  · show (syncMeters _).global_avg = _
    rw [show (evalLoop fwd env.params myBatches
        { total := 0, count := 0 } { total := 0, count := 0 } false).2.1 =
        { total := (correctSum 5 fwd env.params myBatches : ℚ),
          count := sizeSum myBatches } by rw [hm.2]; simp]
    simp only [syncMeters, SmoothedValue.global_avg, List.map_map,
      List.map_cons, List.sum_cons]
    rw [correctSum_append, sizeSum_append, correctSum_flatten, sizeSum_flatten]
    have e1 : List.map (SmoothedValue.total ∘ Prod.snd ∘ workerMeters fwd
        env.params) otherWorkers =
        otherWorkers.map fun bs => ((correctSum 5 fwd env.params bs : ℕ) : ℚ) := by
      refine List.map_congr_left fun bs _ => ?_
      simp [Function.comp, workerMeters_eq]
    have e2 : List.map (SmoothedValue.count ∘ Prod.snd ∘ workerMeters fwd
        env.params) otherWorkers = otherWorkers.map sizeSum := by
      refine List.map_congr_left fun bs _ => ?_
      simp [Function.comp, workerMeters_eq]
    rw [e1, e2]
    push_cast
    simp only [List.map_map, Function.comp_def]

/-- Before the epoch loop, `best_val_top1_accuracy` is 0 whether or not a
checkpoint was found on disk. -/
theorem distillInit_best (p : DParams M O S C A) : (distillInit p).best = 0 := by
  unfold distillInit
  split <;> rfl

/-- The setup of `distill` does not write the checkpoint file. -/
theorem distillInit_disk (p : DParams M O S C A) :
    (distillInit p).disk = p.disk0 := by
  unfold distillInit
  split <;> rfl

/-- The setup of `distill` produces an empty trace. -/
theorem distillInit_events (p : DParams M O S C A) :
    (distillInit p).events = [] := by
  unfold distillInit
  split <;> rfl

/-- One iteration of the epoch loop appends exactly one epoch block to the
trace. -/
theorem distillStep_events (p : DParams M O S C A) (e : ℕ)
    (st : DState M O S C A) :
    (distillStep p e st).events = st.events ++
      epochBlock e (p.evalF (p.trainF e st.student st.optimizer).1)
        (decide (st.best < p.evalF (p.trainF e st.student st.optimizer).1)
          && p.isMain) := by
  simp [distillStep, epochBlock]

/-- Unfolding of the epoch-loop recursion. -/
theorem distillRun_succ (p : DParams M O S C A) (k : ℕ) :
    distillRun p (k + 1) = distillStep p (p.startEpoch + k) (distillRun p k) :=
  rfl

/-- The running best after one iteration of the epoch loop. -/
theorem distillStep_best (p : DParams M O S C A) (e : ℕ)
    (st : DState M O S C A) :
    (distillStep p e st).best =
      (if decide (st.best < p.evalF (p.trainF e st.student st.optimizer).1)
          && p.isMain
       then p.evalF (p.trainF e st.student st.optimizer).1 else st.best) :=
  rfl

/-- The checkpoint file after one iteration of the epoch loop. -/
theorem distillStep_disk (p : DParams M O S C A) (e : ℕ)
    (st : DState M O S C A) :
    (distillStep p e st).disk =
      (if decide (st.best < p.evalF (p.trainF e st.student st.optimizer).1)
          && p.isMain
       then Option.some (ckpt_dict
          (PyModel.plain (p.trainF e st.student st.optimizer).1)
          (p.trainF e st.student st.optimizer).2 st.scheduler
          (distillStep p e st).best p.cfg p.args)
       else st.disk) := by
  by_cases h : (decide (st.best < p.evalF (p.trainF e st.student
      st.optimizer).1) && p.isMain) = true
  · simp only [distillStep, distillStep_best, h, if_true]
  · rw [Bool.not_eq_true] at h
    simp only [distillStep, distillStep_best, h, Bool.false_eq_true, if_false]

/-- The full trace of the epoch loop: one block per iteration, in iteration
order, carrying the accuracies observed and the save decisions taken. -/
theorem distillRun_events (p : DParams M O S C A) (k : ℕ) :
    (distillRun p k).events = (List.range k).flatMap fun j =>
      epochBlock (p.startEpoch + j) (accAt p j) (savedAt p j) := by
  induction k with
  | zero => simp [distillRun, distillInit_events]
  | succ k ih =>
      rw [distillRun_succ, distillStep_events, ih, List.range_succ,
        List.flatMap_append]
      simp [accAt, savedAt]

/-- Each epoch block contains exactly one evaluation event, carrying its
epoch number. -/
theorem epochBlock_evalNum (e : ℕ) (a : ℚ) (s : Bool) :
    (epochBlock e a s).filterMap DEvent.evalNum = [e] := by
  cases s <;> simp [epochBlock, DEvent.evalNum]

/-- C2: `distill` iterates exactly the epochs from `start_epoch` up to (but
excluding) `train_config['epoch']`, and each iteration performs, in order,
one `distill_one_epoch` training pass, one evaluation on the validation
loader, a possible checkpoint save (exactly when the save condition held),
and one scheduler step; in particular the evaluation events of the trace are
exactly one per epoch of that range, in order. -/
theorem distill_epoch_structure (p : DParams M O S C A) :
    (distill p).events = ((List.range (p.epochCfg - p.startEpoch)).flatMap
      fun j => epochBlock (p.startEpoch + j) (accAt p j) (savedAt p j)) ∧
    (distill p).events.filterMap DEvent.evalNum =
      List.range' p.startEpoch (p.epochCfg - p.startEpoch) := by
  have h : (distill p).events = (distillRun p
      (p.epochCfg - p.startEpoch)).events := rfl
  refine ⟨h.trans (distillRun_events p _), ?_⟩
  rw [h, distillRun_events p _, List.range'_eq_map_range]
  generalize p.epochCfg - p.startEpoch = n
  induction n with
  | zero => simp
  | succ n ih =>
      rw [List.range_succ, List.flatMap_append, List.filterMap_append,
        List.map_append, ih]
      simp [epochBlock_evalNum]

/-- A left fold of `max` never goes below its starting value. -/
theorem le_foldl_max (l : List ℚ) : ∀ b : ℚ, b ≤ l.foldl max b := by
  induction l with
  | nil => intro b; exact le_refl b
  | cons x rest ih =>
      intro b
      exact le_trans (le_max_left b x) (ih (max b x))

/-- The running maximum of observed accuracies is nonnegative. -/
theorem maxAccSoFar_nonneg (p : DParams M O S C A) (k : ℕ) :
    0 ≤ maxAccSoFar p k :=
  le_foldl_max _ 0

/-- Recursion of the running maximum of observed accuracies. -/
theorem maxAccSoFar_succ (p : DParams M O S C A) (k : ℕ) :
    maxAccSoFar p (k + 1) = max (maxAccSoFar p k) (accAt p k) := by
  unfold maxAccSoFar
  rw [List.range_succ, List.map_append, List.foldl_append]
  rfl

/-- Invariant of the epoch loop on the main process, for nonnegative
accuracies: the running best equals the maximum accuracy observed so far,
and once that maximum is positive the checkpoint file stores it as its best
value. -/
theorem distillRun_best_inv (p : DParams M O S C A) (hm : p.isMain = true)
    (hpos : ∀ j, 0 ≤ accAt p j) (k : ℕ) :
    (distillRun p k).best = maxAccSoFar p k ∧
    (0 < maxAccSoFar p k →
      ((distillRun p k).disk).map Ckpt.best_value =
        Option.some (Option.some (maxAccSoFar p k))) := by
  induction k with
  | zero =>
      refine ⟨distillInit_best p, fun h => absurd h ?_⟩
      simp [maxAccSoFar]
  | succ k ih =>
      obtain ⟨ihb, ihd⟩ := ih
      have hacc : p.evalF (p.trainF (p.startEpoch + k) (distillRun p k).student
          (distillRun p k).optimizer).1 = accAt p k := rfl
      by_cases hca : (distillRun p k).best < accAt p k
      · have hcond : (decide ((distillRun p k).best <
            p.evalF (p.trainF (p.startEpoch + k) (distillRun p k).student
              (distillRun p k).optimizer).1) && p.isMain) = true := by
          rw [hacc, hm, decide_eq_true hca, Bool.true_and]
        have hbest : (distillRun p (k + 1)).best = accAt p k := by
          rw [distillRun_succ, distillStep_best, hcond, if_pos rfl, hacc]
        have hmax : maxAccSoFar p (k + 1) = accAt p k := by
          rw [maxAccSoFar_succ]
          exact max_eq_right (le_of_lt (ihb ▸ hca))
        refine ⟨hbest.trans hmax.symm, fun _ => ?_⟩
        rw [distillRun_succ, distillStep_disk, hcond, if_pos rfl, hmax,
          ← distillRun_succ, hbest]
        simp [ckpt_dict]
      · have hcond : (decide ((distillRun p k).best <
            p.evalF (p.trainF (p.startEpoch + k) (distillRun p k).student
              (distillRun p k).optimizer).1) && p.isMain) = false := by
          rw [hacc, decide_eq_false hca, Bool.false_and]
        have hbest : (distillRun p (k + 1)).best = (distillRun p k).best := by
          rw [distillRun_succ, distillStep_best, hcond]
          simp
        have hmax : maxAccSoFar p (k + 1) = maxAccSoFar p k := by
          rw [maxAccSoFar_succ]
          exact max_eq_left (le_of_not_lt (ihb ▸ hca))
        have hdisk : (distillRun p (k + 1)).disk = (distillRun p k).disk := by
          rw [distillRun_succ, distillStep_disk, hcond]
          simp
        exact ⟨by rw [hbest, hmax, ihb], fun h => by
          rw [hdisk, hmax]; exact ihd (hmax ▸ h)⟩

/-- A save event for epoch `e` occurs in an epoch block exactly when the
block's save flag is set and the block is epoch `e`'s. -/
theorem saveEpoch_mem_epochBlock (x e : ℕ) (a : ℚ) (s : Bool) :
    DEvent.saveEpoch x ∈ epochBlock e a s ↔ (s = true ∧ x = e) := by
  cases s <;> simp [epochBlock]

/-- A save event for epoch `startEpoch + k` with `k < n` occurs in the trace
of the first `n` iterations exactly when iteration `k` decided to save. -/
theorem saveEpoch_mem_distillRun (p : DParams M O S C A) (n k : ℕ)
    (hk : k < n) :
    DEvent.saveEpoch (p.startEpoch + k) ∈ (distillRun p n).events ↔
      savedAt p k = true := by
  rw [distillRun_events]
  simp only [List.mem_flatMap, List.mem_range, saveEpoch_mem_epochBlock]
  constructor
  · rintro ⟨j, hj, hs, he⟩
    have : j = k := by omega
    exact this ▸ hs
  · intro hs
    exact ⟨k, hk, hs, rfl⟩

/-- C1 (amended): in `distill`, a checkpoint is written in an epoch if and
only if that epoch's validation top-1 accuracy strictly exceeds the running
best value and the process is the main process; on the main process, with
the (always nonnegative) accuracies, after every epoch the running best
value equals the maximum validation top-1 accuracy observed so far in the
run, and whenever that maximum is positive — i.e. once at least one save has
occurred in the run — the checkpoint on disk stores it as its best value.
(The original claim's unconditional statement about the checkpoint on disk
fails before the first save of the run; see the counterexample.) -/
theorem distill_best_checkpoint (p : DParams M O S C A)
    (hm : p.isMain = true) (hpos : ∀ j, 0 ≤ accAt p j) (k : ℕ)
    (hk : k < p.epochCfg - p.startEpoch) :
    (DEvent.saveEpoch (p.startEpoch + k) ∈ (distill p).events ↔
      ((distillRun p k).best < accAt p k ∧ p.isMain = true)) ∧
    (distillRun p (k + 1)).best = maxAccSoFar p (k + 1) ∧
    (0 < maxAccSoFar p (k + 1) →
      ((distillRun p (k + 1)).disk).map Ckpt.best_value =
        Option.some (Option.some (maxAccSoFar p (k + 1)))) := by
  have hmem : (distill p).events =
      (distillRun p (p.epochCfg - p.startEpoch)).events := rfl
  refine ⟨?_, distillRun_best_inv p hm hpos (k + 1)⟩
  rw [hmem, saveEpoch_mem_distillRun p _ k hk, savedAt]
  simp [decide_eq_true_iff]

/-- Witness for C1 at a concrete one-epoch configuration with constant
validation accuracy 1 and no pre-existing checkpoint. -/
theorem distill_best_checkpoint_witness :
    (DEvent.saveEpoch ((constParams 1 Option.none).startEpoch + 0) ∈
        (distill (constParams 1 Option.none)).events ↔
      ((distillRun (constParams 1 Option.none) 0).best <
          accAt (constParams 1 Option.none) 0 ∧
        (constParams 1 Option.none).isMain = true)) ∧
    (distillRun (constParams 1 Option.none) (0 + 1)).best =
      maxAccSoFar (constParams 1 Option.none) (0 + 1) ∧
    (0 < maxAccSoFar (constParams 1 Option.none) (0 + 1) →
      ((distillRun (constParams 1 Option.none) (0 + 1)).disk).map
          Ckpt.best_value =
        Option.some (Option.some
          (maxAccSoFar (constParams 1 Option.none) (0 + 1)))) :=
  distill_best_checkpoint (constParams 1 Option.none) rfl
    (fun j => by norm_num [accAt, constParams]) 0 (by decide)

/-- Counterexample to C1 as stated: resuming from a checkpoint whose stored
best value is 9 and running one epoch with validation accuracy 0, no save
occurs, so after the epoch the checkpoint on disk still stores 9 while
the maximum validation accuracy observed in the run is 0 — the best value
stored in the checkpoint does not equal the maximum observed so far. -/
theorem distill_best_checkpoint_counterexample :
    maxAccSoFar (constParams 0 (Option.some staleCkpt)) 1 = 0 ∧
    ((distill (constParams 0 (Option.some staleCkpt))).disk).map
        Ckpt.best_value = Option.some (Option.some 9) ∧
    ((distill (constParams 0 (Option.some staleCkpt))).disk).map
        Ckpt.best_value ≠
      Option.some (Option.some
        (maxAccSoFar (constParams 0 (Option.some staleCkpt)) 1)) := by
  refine ⟨by decide, by decide, by decide⟩

/-- C8: when `distill` starts with the checkpoint file already present
(resume), its setup restores only the optimizer and scheduler state from the
checkpoint — the student model keeps its initial weights — and the running
best stays 0 (the best value returned by `load_ckpt` is bound to an unused
variable); consequently, on the main process, a first epoch whose validation
accuracy is positive but below the previously stored best still overwrites
the checkpoint with the lower value. -/
theorem distill_resume_drops_best (p : DParams M O S C A)
    (c : Ckpt M O S C A) (b : ℚ) (hd : p.disk0 = Option.some c)
    (hb : c.best_value = Option.some b) (hm : p.isMain = true)
    (ha : 0 < accAt p 0) (hab : accAt p 0 < b) :
    ((distillRun p 0).student = p.student0 ∧
      (distillRun p 0).optimizer = c.optimizer ∧
      (distillRun p 0).scheduler = c.lr_scheduler ∧
      (distillRun p 0).best = 0) ∧
    ((distillRun p 1).disk).map Ckpt.best_value =
      Option.some (Option.some (accAt p 0)) ∧
    ((distillRun p 1).disk).map Ckpt.best_value ≠
      (p.disk0).map Ckpt.best_value := by
  have hinit : distillRun p 0 = distillInit p := rfl
  have hsome : p.disk0.isSome = true := by rw [hd]; rfl
  have h0 : (distillRun p 0).best = 0 := distillInit_best p
  have hcond : (decide ((distillRun p 0).best <
      p.evalF (p.trainF (p.startEpoch + 0) (distillRun p 0).student
        (distillRun p 0).optimizer).1) && p.isMain) = true := by
    have : p.evalF (p.trainF (p.startEpoch + 0) (distillRun p 0).student
        (distillRun p 0).optimizer).1 = accAt p 0 := rfl
    rw [this, h0, hm, decide_eq_true ha, Bool.true_and]
  have hdisk1 : ((distillRun p 1).disk).map Ckpt.best_value =
      Option.some (Option.some (accAt p 0)) := by
    have hb1 : (distillRun p 1).best = accAt p 0 := by
      rw [show (1 : ℕ) = 0 + 1 from rfl, distillRun_succ, distillStep_best,
        hcond, if_pos rfl]
      rfl
    rw [show (1 : ℕ) = 0 + 1 from rfl, distillRun_succ, distillStep_disk,
      hcond, if_pos rfl, ← distillRun_succ, hb1]
    simp [ckpt_dict]
  refine ⟨?_, hdisk1, ?_⟩
  · rw [hinit]
    unfold distillInit
    rw [hsome]
    simp [load_ckpt, hd]
  · rw [hdisk1, hd]
    intro h
    have h2 : Option.some (accAt p 0) = c.best_value := by
      simpa using h
    rw [hb] at h2
    exact absurd (Option.some.inj h2) (ne_of_lt hab)

/-- Witness for C8 at a concrete one-epoch resume configuration: stored best
9, constant validation accuracy 1. -/
theorem distill_resume_drops_best_witness :
    ((distillRun (constParams 1 (Option.some staleCkpt)) 0).student =
        (constParams 1 (Option.some staleCkpt)).student0 ∧
      (distillRun (constParams 1 (Option.some staleCkpt)) 0).optimizer =
        staleCkpt.optimizer ∧
      (distillRun (constParams 1 (Option.some staleCkpt)) 0).scheduler =
        staleCkpt.lr_scheduler ∧
      (distillRun (constParams 1 (Option.some staleCkpt)) 0).best = 0) ∧
    ((distillRun (constParams 1 (Option.some staleCkpt)) 1).disk).map
        Ckpt.best_value =
      Option.some (Option.some (accAt (constParams 1 (Option.some staleCkpt)) 0)) ∧
    ((distillRun (constParams 1 (Option.some staleCkpt)) 1).disk).map
        Ckpt.best_value ≠
      ((constParams 1 (Option.some staleCkpt)).disk0).map Ckpt.best_value :=
  distill_resume_drops_best (constParams 1 (Option.some staleCkpt)) staleCkpt 9
    rfl rfl rfl (by norm_num [accAt, constParams])
    (by norm_num [accAt, constParams])

end ModelDistiller
